import Mathlib

/-!
Verification of the authenticated-ledger state of `src/data_structures/ledger.rs`.

The ledger code (the `State` struct and its operations `new`, `new_account`,
`update_balance`, together with `AccountInformation::to_bytes`) is embedded
directly from the Rust source.  The Merkle tree (`ark_crypto_primitives`'s
`MerkleTree`) and `ark_std::log2` are external library collaborators; they are
modelled from the specification's description of them (a fixed-height binary
tree with point updates that fail out of range, and the ceiling base-2
logarithm).  Hash functions are abstract: a parameter bundle carries the leaf
hash and the two-to-one hash as opaque functions, mirroring the CRH parameters.

Bytes are modelled as `List Nat`; a panic of the Rust code (`unwrap`/`expect`)
is modelled explicitly by an `OpResult` carrying a `panicked` flag together
with the state at the moment of the panic, so that non-atomicity of partially
applied operations is observable.
-/

/-- Account public key (`schnorr::PublicKey<EdwardsProjective>`).  Its curve
representation is out of scope; it is modelled by its canonical byte
serialization, which is all the ledger ever uses of it. -/
abbrev AccountPublicKey : Type := List Nat

/-- Account ID: the Rust newtype `struct AccountId(u8)`. -/
structure AccountId where
  val : Fin 256
deriving DecidableEq

/-- Transaction amount: the Rust newtype `struct Amount(u64)`.  No arithmetic
is performed on amounts by the ledger, so the 64-bit width only matters in the
serialization, where the value is reduced modulo `2 ^ 64`. -/
structure Amount where
  val : Nat
deriving DecidableEq

/-- Little-endian serialization of a `u64`, as `ark_ff::to_bytes!` produces
for the `u64` balance field. -/
def u64ToBytesLE (n : Nat) : List Nat :=
  [n % 2 ^ 64 % 256,
   n % 2 ^ 64 / 2 ^ 8 % 256,
   n % 2 ^ 64 / 2 ^ 16 % 256,
   n % 2 ^ 64 / 2 ^ 24 % 256,
   n % 2 ^ 64 / 2 ^ 32 % 256,
   n % 2 ^ 64 / 2 ^ 40 % 256,
   n % 2 ^ 64 / 2 ^ 48 % 256,
   n % 2 ^ 64 / 2 ^ 56 % 256]

/-- `AccountInformation { public_key, balance }`. -/
structure AccountInformation where
  public_key : AccountPublicKey
  balance : Amount
deriving DecidableEq

/-- `AccountInformation::to_bytes`: `ark_ff::to_bytes![self.public_key,
self.balance.0]`, i.e. the canonical bytes of the public key followed by the
little-endian bytes of the balance. -/
def AccountInformation.to_bytes (info : AccountInformation) : List Nat :=
  info.public_key ++ u64ToBytesLE info.balance.val

/-- The parameter bundle (`Parameters`): Schnorr signature parameters are
never used by the ledger and are kept opaque; the two CRH parameter fields are
modelled as the hash functions they determine. -/
structure Parameters where
  sig_params : Unit
  leaf_crh_params : List Nat → Nat
  two_to_one_crh_params : Nat → Nat → Nat

/-- Modelled from the spec: the Authenticated Commitment Tree, a fixed-height
binary Merkle tree with `2 ^ height` leaves, storing the hash parameters it
was built with (`MerkleTree<MerkleConfig>` of `ark_crypto_primitives`, which
is external library code).  Leaves hold the raw byte encodings; digests are
recomputed from them by `root`. -/
structure MerkleTree where
  leafHash : List Nat → Nat
  twoToOneHash : Nat → Nat → Nat
  height : Nat
  leaves : Nat → List Nat

/-- Modelled from the spec: the canonical default encoding held by every leaf
of a blank tree. -/
def blankLeafBytes : List Nat := []

/-- Modelled from the spec: `MerkleTree::blank` — every leaf set to the
canonical default encoding. -/
def MerkleTree.blank (leafHash : List Nat → Nat) (twoToOneHash : Nat → Nat → Nat)
    (height : Nat) : MerkleTree :=
  { leafHash := leafHash
    twoToOneHash := twoToOneHash
    height := height
    leaves := fun _ => blankLeafBytes }

/-- Modelled from the spec: `MerkleTree::update` — given `0 ≤ index <
2 ^ height`, overwrite leaf `index` and recompute the path to the root
(digests are recomputed on demand by `root` here); fail if `index` is out of
range. -/
def MerkleTree.update (t : MerkleTree) (index : Nat) (bytes : List Nat) :
    Option MerkleTree :=
  if index < 2 ^ t.height then
    some { t with leaves := fun j => if j = index then bytes else t.leaves j }
  else
    none

/-- One level of Merkle digests combined pairwise by the two-to-one hash. -/
def hashPairs (two : Nat → Nat → Nat) : List Nat → List Nat
  | a :: b :: rest => two a b :: hashPairs two rest
  | l => l

/-- Fold `height` levels of pairwise hashing over a level of digests. -/
def rootLevels (two : Nat → Nat → Nat) : Nat → List Nat → List Nat
  | 0, ds => ds
  | h + 1, ds => rootLevels two h (hashPairs two ds)

/-- Modelled from the spec: `MerkleTree::root` — the single digest obtained by
leaf-hashing every leaf and combining siblings with the two-to-one hash up to
the apex.  Pure read. -/
def MerkleTree.root (t : MerkleTree) : Nat :=
  (rootLevels t.twoToOneHash t.height
    ((List.range (2 ^ t.height)).map (fun i => t.leafHash (t.leaves i)))).headD 0

/-- The ledger state (`State`): commitment tree plus the two hash maps,
modelled as total functions into `Option`. -/
structure State where
  account_merkle_tree : MerkleTree
  id_to_account_info : AccountId → Option AccountInformation
  pub_key_to_id : AccountPublicKey → Option AccountId

/-- `HashMap::insert` on the id-to-record map. -/
def insertInfo (m : AccountId → Option AccountInformation) (k : AccountId)
    (v : AccountInformation) : AccountId → Option AccountInformation :=
  fun k' => if k' = k then some v else m k'

/-- `HashMap::insert` on the public-key-to-id map. -/
def insertPk (m : AccountPublicKey → Option AccountId) (k : AccountPublicKey)
    (v : AccountId) : AccountPublicKey → Option AccountId :=
  fun k' => if k' = k then some v else m k'

/-- Modelled from the spec (`ark_std::log2`, external library code): the
ceiling base-2 logarithm used to size the tree, with `log2 0 = 0`. -/
def log2ark (x : Nat) : Nat :=
  if x = 0 then 0
  else if 2 ^ Nat.log 2 x = x then Nat.log 2 x
  else Nat.log 2 x + 1

/-- `State::new(num_accounts, parameters)`: a blank tree of height
`log2(num_accounts)` and empty maps. -/
def State.new (num_accounts : Nat) (parameters : Parameters) : State :=
  { account_merkle_tree :=
      MerkleTree.blank parameters.leaf_crh_params parameters.two_to_one_crh_params
        (log2ark num_accounts)
    id_to_account_info := fun _ => none
    pub_key_to_id := fun _ => none }

/-- Outcome of one mutating operation: whether the operation panicked
(`expect` on a failed tree update), the state at completion — or, for a
panic, at the moment of the panic — and the returned value (`Some(())` /
`None` for `update_balance`; `new_account` returns unit, rendered as
`some ()` on normal completion). -/
structure OpResult where
  panicked : Bool
  state : State
  ret : Option Unit

/-- `State::new_account(id, pub_key)`: insert `pub_key ↦ id` into
`pub_key_to_id`, then update tree leaf `id` with the encoded zero-balance
record (panicking if the index is out of range), then insert the record into
`id_to_account_info`. -/
def State.new_account (s : State) (id : AccountId) (public_key : AccountPublicKey) :
    OpResult :=
  let account_info : AccountInformation := ⟨public_key, ⟨0⟩⟩
  let s1 : State := { s with pub_key_to_id := insertPk s.pub_key_to_id public_key id }
  match s1.account_merkle_tree.update id.val.val account_info.to_bytes with
  | none => ⟨true, s1, none⟩
  | some t =>
      ⟨false,
       { s1 with
          account_merkle_tree := t
          id_to_account_info := insertInfo s1.id_to_account_info id account_info },
       some ()⟩

/-- `State::update_balance(id, new_amount)`: if `id` has no record, return
`None` without mutating anything; otherwise overwrite the record's balance,
then update tree leaf `id` with the re-encoded record (panicking if the index
is out of range — the balance overwrite has already happened). -/
def State.update_balance (s : State) (id : AccountId) (new_amount : Amount) :
    OpResult :=
  match s.id_to_account_info id with
  | none => ⟨false, s, none⟩
  | some account_info =>
      let account_info' : AccountInformation := { account_info with balance := new_amount }
      let s1 : State := { s with id_to_account_info := insertInfo s.id_to_account_info id account_info' }
      match s1.account_merkle_tree.update id.val.val account_info'.to_bytes with
      | none => ⟨true, s1, none⟩
      | some t => ⟨false, { s1 with account_merkle_tree := t }, some ()⟩

/-- One call of the ledger's public mutating interface. -/
inductive Op where
  | create (id : AccountId) (public_key : AccountPublicKey)
  | update (id : AccountId) (new_amount : Amount)

/-- Apply one operation. -/
def stepOp (s : State) : Op → OpResult
  | Op.create id pk => s.new_account id pk
  | Op.update id amt => s.update_balance id amt

/-- Run a sequence of operations from a state; `none` if some operation
panicked (the sequence did not complete). -/
def runOps (s : State) : List Op → Option State
  | [] => some s
  | op :: rest =>
      let r := stepOp s op
      if r.panicked then none else runOps r.state rest

/-! ### Concrete fixtures used by witnesses and counterexamples -/

/-- A concrete parameter bundle (the hash functions are irrelevant to the
map/tree bookkeeping, so constant functions suffice). -/
def p0 : Parameters := ⟨(), fun _ => 0, fun _ _ => 0⟩

/-- A concrete public key. -/
def pkA : AccountPublicKey := [1]

/-- A second concrete public key. -/
def pkB : AccountPublicKey := [2]

/-- Account id 0. -/
def idA : AccountId := ⟨0⟩

/-- Account id 1. -/
def idB : AccountId := ⟨1⟩

/-- Account id 5 — out of range for a capacity-4 (height-2) tree. -/
def idBig : AccountId := ⟨5⟩

/-- The blank capacity-4 ledger, written with its height as the literal `2`
(shown below to equal `State.new 4 p0`). -/
def base4 : State :=
  ⟨MerkleTree.blank (fun _ => 0) (fun _ _ => 0) 2, fun _ => none, fun _ => none⟩

theorem log2ark_four : log2ark 4 = 2 := by
  have hlog : Nat.log 2 4 = 2 := by
    rw [show (4 : ℕ) = 2 ^ 2 from rfl]
    exact Nat.log_pow one_lt_two 2
  simp [log2ark, hlog]

theorem new_four_eq_base4 : State.new 4 p0 = base4 := by
  simp [State.new, base4, p0, log2ark_four]

/-- State after creating account `idA` with key `pkA` in the blank
capacity-4 ledger. -/
def stateA : State := (base4.new_account idA pkA).state

/-- The record stored for `idA` in `stateA`. -/
def infoA : AccountInformation := ⟨pkA, ⟨0⟩⟩

/-! ### Claim theorems -/

/-- C2: if `id` has no record in `id_to_account_info`, `update_balance(id, a)`
returns `None` and performs no mutation: the Merkle root, the record map and
the key directory are all unchanged (in fact the whole state is unchanged and
no panic occurs). -/
theorem update_balance_miss_noop (s : State) (id : AccountId) (a : Amount)
    (h : s.id_to_account_info id = none) :
    (s.update_balance id a).ret = none ∧
    (s.update_balance id a).panicked = false ∧
    (s.update_balance id a).state.account_merkle_tree.root = s.account_merkle_tree.root ∧
    (s.update_balance id a).state.id_to_account_info = s.id_to_account_info ∧
    (s.update_balance id a).state.pub_key_to_id = s.pub_key_to_id := by
  simp [State.update_balance, h]

theorem update_balance_miss_noop_witness :
    (State.new 4 p0).id_to_account_info idBig = none ∧
    (((State.new 4 p0).update_balance idBig ⟨7⟩).ret = none ∧
     ((State.new 4 p0).update_balance idBig ⟨7⟩).panicked = false ∧
     ((State.new 4 p0).update_balance idBig ⟨7⟩).state.account_merkle_tree.root =
       (State.new 4 p0).account_merkle_tree.root ∧
     ((State.new 4 p0).update_balance idBig ⟨7⟩).state.id_to_account_info =
       (State.new 4 p0).id_to_account_info ∧
     ((State.new 4 p0).update_balance idBig ⟨7⟩).state.pub_key_to_id =
       (State.new 4 p0).pub_key_to_id) :=
  ⟨rfl, update_balance_miss_noop (State.new 4 p0) idBig ⟨7⟩ rfl⟩

/-- C3: if `id` has a record and `id` is within tree capacity,
`update_balance(id, new_amount)` returns `Some(())`, sets the stored record's
balance to exactly `new_amount`, and writes the re-encoded updated record into
the Merkle tree leaf at index `id`. -/
theorem update_balance_hit (s : State) (id : AccountId) (a : Amount)
    (info : AccountInformation)
    (hinfo : s.id_to_account_info id = some info)
    (hrange : id.val.val < 2 ^ s.account_merkle_tree.height) :
    (s.update_balance id a).ret = some () ∧
    (s.update_balance id a).panicked = false ∧
    (s.update_balance id a).state.id_to_account_info id =
      some { info with balance := a } ∧
    (s.update_balance id a).state.account_merkle_tree.leaves id.val.val =
      AccountInformation.to_bytes { info with balance := a } := by
  simp [State.update_balance, hinfo, MerkleTree.update, hrange, insertInfo]

theorem update_balance_hit_witness :
    stateA.id_to_account_info idA = some infoA ∧
    idA.val.val < 2 ^ stateA.account_merkle_tree.height ∧
    ((stateA.update_balance idA ⟨100⟩).ret = some () ∧
     (stateA.update_balance idA ⟨100⟩).panicked = false ∧
     (stateA.update_balance idA ⟨100⟩).state.id_to_account_info idA =
       some { infoA with balance := ⟨100⟩ } ∧
     (stateA.update_balance idA ⟨100⟩).state.account_merkle_tree.leaves idA.val.val =
       AccountInformation.to_bytes { infoA with balance := ⟨100⟩ }) :=
  ⟨rfl, by decide, update_balance_hit stateA idA ⟨100⟩ infoA rfl (by decide)⟩

/-- C4: for `id` within tree capacity, `new_account(id, public_key)` stores a
record with balance exactly zero in `id_to_account_info[id]`, inserts
`public_key ↦ id` into `pub_key_to_id`, and writes the canonical encoding of
that record into the Merkle tree leaf at index `id`. -/
theorem new_account_creates_zero_balance (s : State) (id : AccountId)
    (pk : AccountPublicKey)
    (hrange : id.val.val < 2 ^ s.account_merkle_tree.height) :
    (s.new_account id pk).panicked = false ∧
    (s.new_account id pk).state.id_to_account_info id = some ⟨pk, ⟨0⟩⟩ ∧
    (s.new_account id pk).state.pub_key_to_id pk = some id ∧
    (s.new_account id pk).state.account_merkle_tree.leaves id.val.val =
      AccountInformation.to_bytes ⟨pk, ⟨0⟩⟩ := by
  simp [State.new_account, MerkleTree.update, hrange, insertInfo, insertPk]

theorem new_account_creates_zero_balance_witness :
    idB.val.val < 2 ^ stateA.account_merkle_tree.height ∧
    ((stateA.new_account idB pkB).panicked = false ∧
     (stateA.new_account idB pkB).state.id_to_account_info idB = some ⟨pkB, ⟨0⟩⟩ ∧
     (stateA.new_account idB pkB).state.pub_key_to_id pkB = some idB ∧
     (stateA.new_account idB pkB).state.account_merkle_tree.leaves idB.val.val =
       AccountInformation.to_bytes ⟨pkB, ⟨0⟩⟩) :=
  ⟨by decide, new_account_creates_zero_balance stateA idB pkB (by decide)⟩

/-- C7: for an assigned `id`, `update_balance(id, a)` changes only account
`id`'s leaf: every other account's stored record and every other leaf are
unchanged, and `pub_key_to_id` is unchanged in its entirety. -/
theorem update_balance_frame (s : State) (id : AccountId) (a : Amount)
    (info : AccountInformation)
    (hinfo : s.id_to_account_info id = some info) :
    (∀ j, j ≠ id →
      (s.update_balance id a).state.id_to_account_info j = s.id_to_account_info j) ∧
    (∀ n, n ≠ id.val.val →
      (s.update_balance id a).state.account_merkle_tree.leaves n =
        s.account_merkle_tree.leaves n) ∧
    (s.update_balance id a).state.pub_key_to_id = s.pub_key_to_id := by
  by_cases hr : id.val.val < 2 ^ s.account_merkle_tree.height
  · refine ⟨?_, ?_, ?_⟩
    · intro j hj
      simp [State.update_balance, hinfo, MerkleTree.update, hr, insertInfo, hj]
    · intro n hn
      simp [State.update_balance, hinfo, MerkleTree.update, hr, hn]
    · simp [State.update_balance, hinfo, MerkleTree.update, hr]
  · refine ⟨?_, ?_, ?_⟩
    · intro j hj
      simp [State.update_balance, hinfo, MerkleTree.update, hr, insertInfo, hj]
    · intro n hn
      simp [State.update_balance, hinfo, MerkleTree.update, hr]
    · simp [State.update_balance, hinfo, MerkleTree.update, hr]

theorem update_balance_frame_witness :
    stateA.id_to_account_info idA = some infoA ∧
    ((stateA.update_balance idA ⟨100⟩).state.id_to_account_info idB =
       stateA.id_to_account_info idB ∧
     (stateA.update_balance idA ⟨100⟩).state.account_merkle_tree.leaves 1 =
       stateA.account_merkle_tree.leaves 1 ∧
     (stateA.update_balance idA ⟨100⟩).state.pub_key_to_id = stateA.pub_key_to_id) :=
  ⟨rfl,
   (update_balance_frame stateA idA ⟨100⟩ infoA rfl).1 idB (by decide),
   (update_balance_frame stateA idA ⟨100⟩ infoA rfl).2.1 1 (by decide),
   (update_balance_frame stateA idA ⟨100⟩ infoA rfl).2.2⟩

/-- C8: the whole pipeline is deterministic — two ledgers freshly built with
`new(c, p)` from the same parameter bundle, fed the identical sequence of
operations in the identical order, end with identical Merkle roots. -/
theorem run_deterministic (c : Nat) (p : Parameters) (ops : List Op)
    (s1 s2 : State)
    (h1 : runOps (State.new c p) ops = some s1)
    (h2 : runOps (State.new c p) ops = some s2) :
    s1.account_merkle_tree.root = s2.account_merkle_tree.root := by
  have h : some s1 = some s2 := h1.symm.trans h2
  injection h with h
  rw [h]

theorem run_deterministic_witness :
    runOps (State.new 4 p0) [] = some (State.new 4 p0) ∧
    (State.new 4 p0).account_merkle_tree.root =
      (State.new 4 p0).account_merkle_tree.root :=
  ⟨rfl, run_deterministic 4 p0 [] (State.new 4 p0) (State.new 4 p0) rfl rfl⟩

/-- C10: every constructible `AccountId` wraps a `u8` and so its numeric
value is below 256; hence for any ledger whose tree capacity `2 ^ height` is
at least 256, the out-of-range failure branch of the tree update is
unreachable in both `new_account` and `update_balance`. -/
theorem account_id_below_capacity (s : State) (id : AccountId)
    (pk : AccountPublicKey) (a : Amount)
    (hcap : 256 ≤ 2 ^ s.account_merkle_tree.height) :
    id.val.val < 256 ∧
    (s.new_account id pk).panicked = false ∧
    (s.update_balance id a).panicked = false := by
  have hlt : id.val.val < 2 ^ s.account_merkle_tree.height :=
    lt_of_lt_of_le id.val.isLt hcap
  refine ⟨id.val.isLt, ?_, ?_⟩
  · simp [State.new_account, MerkleTree.update, hlt]
  · cases hinfo : s.id_to_account_info id with
    | none => simp [State.update_balance, hinfo]
    | some info => simp [State.update_balance, hinfo, MerkleTree.update, hlt]

theorem account_id_below_capacity_witness :
    (256 ≤ 2 ^ (MerkleTree.blank (fun _ => 0) (fun _ _ => 0) 8).height) ∧
    (idBig.val.val < 256 ∧
     ((⟨MerkleTree.blank (fun _ => 0) (fun _ _ => 0) 8, fun _ => none,
        fun _ => none⟩ : State).new_account idBig pkA).panicked = false ∧
     ((⟨MerkleTree.blank (fun _ => 0) (fun _ _ => 0) 8, fun _ => none,
        fun _ => none⟩ : State).update_balance idBig ⟨7⟩).panicked = false) :=
  ⟨by decide,
   account_id_below_capacity
     ⟨MerkleTree.blank (fun _ => 0) (fun _ _ => 0) 8, fun _ => none, fun _ => none⟩
     idBig pkA ⟨7⟩ (by decide)⟩

/-! ### Shape lemmas for the operation branches -/

theorem AccountId.eq_of_index_eq {a b : AccountId} (h : a.val.val = b.val.val) :
    a = b := by
  cases a with
  | mk av =>
    cases b with
    | mk bv =>
      simp only [AccountId.mk.injEq]
      exact Fin.ext h

theorem new_account_eq_of_lt (s : State) (id : AccountId) (pk : AccountPublicKey)
    (hr : id.val.val < 2 ^ s.account_merkle_tree.height) :
    s.new_account id pk =
      ⟨false,
       ⟨{ s.account_merkle_tree with
            leaves := fun j =>
              if j = id.val.val then AccountInformation.to_bytes ⟨pk, ⟨0⟩⟩
              else s.account_merkle_tree.leaves j },
        insertInfo s.id_to_account_info id ⟨pk, ⟨0⟩⟩,
        insertPk s.pub_key_to_id pk id⟩,
       some ()⟩ := by
  simp [State.new_account, MerkleTree.update, hr]

theorem new_account_eq_of_ge (s : State) (id : AccountId) (pk : AccountPublicKey)
    (hr : ¬ id.val.val < 2 ^ s.account_merkle_tree.height) :
    s.new_account id pk =
      ⟨true,
       ⟨s.account_merkle_tree, s.id_to_account_info, insertPk s.pub_key_to_id pk id⟩,
       none⟩ := by
  simp [State.new_account, MerkleTree.update, hr]

theorem update_balance_eq_of_none (s : State) (id : AccountId) (a : Amount)
    (h : s.id_to_account_info id = none) :
    s.update_balance id a = ⟨false, s, none⟩ := by
  simp [State.update_balance, h]

theorem update_balance_eq_of_lt (s : State) (id : AccountId) (a : Amount)
    (info : AccountInformation) (h : s.id_to_account_info id = some info)
    (hr : id.val.val < 2 ^ s.account_merkle_tree.height) :
    s.update_balance id a =
      ⟨false,
       ⟨{ s.account_merkle_tree with
            leaves := fun j =>
              if j = id.val.val then AccountInformation.to_bytes { info with balance := a }
              else s.account_merkle_tree.leaves j },
        insertInfo s.id_to_account_info id { info with balance := a },
        s.pub_key_to_id⟩,
       some ()⟩ := by
  simp [State.update_balance, h, MerkleTree.update, hr]

theorem update_balance_eq_of_ge (s : State) (id : AccountId) (a : Amount)
    (info : AccountInformation) (h : s.id_to_account_info id = some info)
    (hr : ¬ id.val.val < 2 ^ s.account_merkle_tree.height) :
    s.update_balance id a =
      ⟨true,
       ⟨s.account_merkle_tree,
        insertInfo s.id_to_account_info id { info with balance := a },
        s.pub_key_to_id⟩,
       none⟩ := by
  simp [State.update_balance, h, MerkleTree.update, hr]

/-! ### The tree/data synchronization invariant (C1) -/

/-- Every assigned id's leaf holds the canonical encoding of its record. -/
def LeafSync (s : State) : Prop :=
  ∀ id info, s.id_to_account_info id = some info →
    s.account_merkle_tree.leaves id.val.val = AccountInformation.to_bytes info

theorem leafSync_new (c : Nat) (p : Parameters) : LeafSync (State.new c p) := by
  intro id info h
  simp [State.new] at h

theorem leafSync_write (s : State) (id : AccountId) (info : AccountInformation)
    (pkm : AccountPublicKey → Option AccountId) (h : LeafSync s) :
    LeafSync
      ⟨{ s.account_merkle_tree with
          leaves := fun j =>
            if j = id.val.val then AccountInformation.to_bytes info
            else s.account_merkle_tree.leaves j },
        insertInfo s.id_to_account_info id info, pkm⟩ := by
  intro j info' hj
  by_cases hji : j = id
  · subst hji
    simp only [insertInfo, if_pos rfl] at hj
    cases hj
    simp
  · have hvv : j.val.val ≠ id.val.val := fun hv => hji (AccountId.eq_of_index_eq hv)
    simp only [insertInfo, if_neg hji] at hj
    simpa [hvv] using h j info' hj

theorem leafSync_step (s : State) (op : Op) (h : LeafSync s)
    (hp : (stepOp s op).panicked = false) : LeafSync (stepOp s op).state := by
  cases op with
  | create id pk =>
      by_cases hr : id.val.val < 2 ^ s.account_merkle_tree.height
      · rw [stepOp, new_account_eq_of_lt s id pk hr]
        exact leafSync_write s id ⟨pk, ⟨0⟩⟩ (insertPk s.pub_key_to_id pk id) h
      · rw [stepOp, new_account_eq_of_ge s id pk hr] at hp
        cases hp
  | update id a =>
      cases hinfo : s.id_to_account_info id with
      | none =>
          rw [stepOp, update_balance_eq_of_none s id a hinfo]
          exact h
      | some info =>
          by_cases hr : id.val.val < 2 ^ s.account_merkle_tree.height
          · rw [stepOp, update_balance_eq_of_lt s id a info hinfo hr]
            exact leafSync_write s id { info with balance := a } s.pub_key_to_id h
          · rw [stepOp, update_balance_eq_of_ge s id a info hinfo hr] at hp
            cases hp

theorem leafSync_runOps (ops : List Op) (s s' : State) (h : LeafSync s)
    (hrun : runOps s ops = some s') : LeafSync s' := by
  induction ops generalizing s with
  | nil =>
      simp only [runOps, Option.some.injEq] at hrun
      rw [← hrun]
      exact h
  | cons op rest ih =>
      simp only [runOps] at hrun
      by_cases hp : (stepOp s op).panicked = true
      · rw [if_pos hp] at hrun
        cases hrun
      · rw [if_neg hp] at hrun
        exact ih (stepOp s op).state (leafSync_step s op h (by simpa using hp)) hrun

/-- C1: after every completed run of operations from a freshly built ledger
(construction, account creations, balance updates), every assigned id's
Merkle leaf equals the canonical byte encoding of the record stored for it in
`id_to_account_info`. -/
theorem leaf_matches_record (c : Nat) (p : Parameters) (ops : List Op)
    (s : State) (id : AccountId) (info : AccountInformation)
    (hrun : runOps (State.new c p) ops = some s)
    (hinfo : s.id_to_account_info id = some info) :
    s.account_merkle_tree.leaves id.val.val = AccountInformation.to_bytes info :=
  leafSync_runOps ops (State.new c p) s (leafSync_new c p) hrun id info hinfo

theorem leaf_matches_record_witness :
    runOps (State.new 4 p0) [Op.create idA pkA] = some stateA ∧
    stateA.id_to_account_info idA = some infoA ∧
    stateA.account_merkle_tree.leaves idA.val.val =
      AccountInformation.to_bytes infoA := by
  have hrun : runOps (State.new 4 p0) [Op.create idA pkA] = some stateA := by
    rw [new_four_eq_base4]
    rfl
  exact ⟨hrun, rfl,
    leaf_matches_record 4 p0 [Op.create idA pkA] stateA idA infoA hrun rfl⟩

/-! ### Directory consistency (C5) -/

/-- The public keys passed to the create operations of a call sequence, in
order. -/
def createKeys : List Op → List AccountPublicKey
  | [] => []
  | Op.create _ pk :: rest => pk :: createKeys rest
  | Op.update _ _ :: rest => createKeys rest

/-- Some assigned record carries public key `pk`. -/
def pkAssigned (s : State) (pk : AccountPublicKey) : Prop :=
  ∃ id info, s.id_to_account_info id = some info ∧ info.public_key = pk

/-- Directory consistency: every assigned record's key maps back to its id. -/
def DirInv (s : State) : Prop :=
  ∀ id info, s.id_to_account_info id = some info →
    s.pub_key_to_id info.public_key = some id

theorem dirInv_insert_fresh (s : State) (t : MerkleTree) (id : AccountId)
    (pk : AccountPublicKey) (hfresh : ¬ pkAssigned s pk) (h : DirInv s) :
    DirInv ⟨t, insertInfo s.id_to_account_info id ⟨pk, ⟨0⟩⟩,
            insertPk s.pub_key_to_id pk id⟩ := by
  intro j info hj
  by_cases hji : j = id
  · subst hji
    simp only [insertInfo, if_pos rfl] at hj
    cases hj
    simp [insertPk]
  · simp only [insertInfo, if_neg hji] at hj
    have hpk : info.public_key ≠ pk := fun he => hfresh ⟨j, info, hj, he⟩
    simpa [insertPk, hpk] using h j info hj

theorem dirInv_insert_balance (s : State) (t : MerkleTree) (id : AccountId)
    (a : Amount) (info : AccountInformation)
    (hinfo : s.id_to_account_info id = some info) (h : DirInv s) :
    DirInv ⟨t, insertInfo s.id_to_account_info id { info with balance := a },
            s.pub_key_to_id⟩ := by
  intro j info' hj
  by_cases hji : j = id
  · subst hji
    simp only [insertInfo, if_pos rfl] at hj
    cases hj
    exact h _ info hinfo
  · simp only [insertInfo, if_neg hji] at hj
    exact h j info' hj

theorem pkAssigned_of_create (s : State) (id : AccountId)
    (pk pk' : AccountPublicKey)
    (hr : id.val.val < 2 ^ s.account_merkle_tree.height) (hne : pk' ≠ pk)
    (h : pkAssigned (s.new_account id pk).state pk') : pkAssigned s pk' := by
  rw [new_account_eq_of_lt s id pk hr] at h
  obtain ⟨j, info, hj, hpk⟩ := h
  by_cases hji : j = id
  · subst hji
    simp only [insertInfo, if_pos rfl] at hj
    cases hj
    exact absurd hpk.symm hne
  · simp only [insertInfo, if_neg hji] at hj
    exact ⟨j, info, hj, hpk⟩

theorem pkAssigned_of_update (s : State) (id : AccountId) (a : Amount)
    (pk' : AccountPublicKey)
    (h : pkAssigned (s.update_balance id a).state pk') : pkAssigned s pk' := by
  cases hinfo : s.id_to_account_info id with
  | none =>
      rw [update_balance_eq_of_none s id a hinfo] at h
      exact h
  | some info =>
      have core : ∀ t : MerkleTree,
          pkAssigned ⟨t, insertInfo s.id_to_account_info id { info with balance := a },
                      s.pub_key_to_id⟩ pk' → pkAssigned s pk' := by
        intro t ht
        obtain ⟨j, info', hj, hpk⟩ := ht
        by_cases hji : j = id
        · subst hji
          simp only [insertInfo, if_pos rfl] at hj
          cases hj
          exact ⟨_, info, hinfo, hpk⟩
        · simp only [insertInfo, if_neg hji] at hj
          exact ⟨j, info', hj, hpk⟩
      by_cases hr : id.val.val < 2 ^ s.account_merkle_tree.height
      · rw [update_balance_eq_of_lt s id a info hinfo hr] at h
        exact core _ h
      · rw [update_balance_eq_of_ge s id a info hinfo hr] at h
        exact core _ h

theorem dirInv_runOps (ops : List Op) (s s' : State) (h : DirInv s)
    (hfresh : ∀ pk ∈ createKeys ops, ¬ pkAssigned s pk)
    (hdist : (createKeys ops).Pairwise (fun a b => a ≠ b))
    (hrun : runOps s ops = some s') : DirInv s' := by
  induction ops generalizing s with
  | nil =>
      simp only [runOps, Option.some.injEq] at hrun
      rw [← hrun]
      exact h
  | cons op rest ih =>
      simp only [runOps] at hrun
      by_cases hp : (stepOp s op).panicked = true
      · rw [if_pos hp] at hrun
        cases hrun
      · rw [if_neg hp] at hrun
        cases op with
        | create id pk =>
            by_cases hr : id.val.val < 2 ^ s.account_merkle_tree.height
            · have hkeys : createKeys (Op.create id pk :: rest) = pk :: createKeys rest := rfl
              rw [hkeys] at hfresh hdist
              have hd := List.pairwise_cons.mp hdist
              refine ih ((s.new_account id pk).state) ?_ ?_ hd.2 hrun
              · rw [new_account_eq_of_lt s id pk hr]
                exact dirInv_insert_fresh s _ id pk
                  (hfresh pk (List.mem_cons_self pk _)) h
              · intro pk' hpk' hass
                exact hfresh pk' (List.mem_cons_of_mem pk hpk')
                  (pkAssigned_of_create s id pk pk' hr
                    (fun he => hd.1 pk' hpk' he.symm) hass)
            · exfalso
              apply hp
              rw [stepOp, new_account_eq_of_ge s id pk hr]
        | update id a =>
            have hkeys : createKeys (Op.update id a :: rest) = createKeys rest := rfl
            rw [hkeys] at hfresh hdist
            refine ih ((s.update_balance id a).state) ?_ ?_ hdist hrun
            · cases hinfo : s.id_to_account_info id with
              | none =>
                  rw [update_balance_eq_of_none s id a hinfo]
                  exact h
              | some info =>
                  by_cases hr : id.val.val < 2 ^ s.account_merkle_tree.height
                  · rw [update_balance_eq_of_lt s id a info hinfo hr]
                    exact dirInv_insert_balance s _ id a info hinfo h
                  · rw [update_balance_eq_of_ge s id a info hinfo hr]
                    exact dirInv_insert_balance s _ id a info hinfo h
            · intro pk' hpk' hass
              exact hfresh pk' hpk' (pkAssigned_of_update s id a pk' hass)

/-- State reached by creating accounts `idA` and `idB` with the same public
key `pkA` in the blank capacity-4 ledger. -/
def sDup : State := ((base4.new_account idA pkA).state.new_account idB pkA).state

/-- C5 counterexample: after two completed create operations that reuse the
public key `pkA` for ids 0 and 1, id 0's record still carries `pkA` but
`pub_key_to_id` maps `pkA` to id 1, so the maps are not consistent inverses. -/
theorem directory_inverse_cex :
    runOps (State.new 4 p0) [Op.create idA pkA, Op.create idB pkA] = some sDup ∧
    sDup.id_to_account_info idA = some infoA ∧
    sDup.pub_key_to_id infoA.public_key ≠ some idA := by
  refine ⟨?_, rfl, by decide⟩
  rw [new_four_eq_base4]
  rfl

/-- C5 (amended): after every completed operation sequence whose create
operations use pairwise-distinct public keys, `id_to_account_info` and
`pub_key_to_id` are consistent inverses: for every pair `(id, info)` in
`id_to_account_info`, `pub_key_to_id` maps `info.public_key` back to `id`.
(Reusing one public key for two ids silently overwrites the reverse binding,
which is what the counterexample exhibits.) -/
theorem directory_inverse_of_distinct_keys (c : Nat) (p : Parameters)
    (ops : List Op) (s : State) (id : AccountId) (info : AccountInformation)
    (hdist : (createKeys ops).Pairwise (fun a b => a ≠ b))
    (hrun : runOps (State.new c p) ops = some s)
    (hinfo : s.id_to_account_info id = some info) :
    s.pub_key_to_id info.public_key = some id := by
  refine dirInv_runOps ops (State.new c p) s ?_ ?_ hdist hrun id info hinfo
  · intro j info' hj
    simp [State.new] at hj
  · intro pk _ hass
    obtain ⟨j, info', hj, _⟩ := hass
    simp [State.new] at hj

/-- State reached by creating accounts `idA` and `idB` with the distinct
public keys `pkA` and `pkB` in the blank capacity-4 ledger. -/
def sTwo : State := ((base4.new_account idA pkA).state.new_account idB pkB).state

theorem directory_inverse_of_distinct_keys_witness :
    (createKeys [Op.create idA pkA, Op.create idB pkB]).Pairwise
      (fun a b => a ≠ b) ∧
    runOps (State.new 4 p0) [Op.create idA pkA, Op.create idB pkB] = some sTwo ∧
    sTwo.id_to_account_info idA = some infoA ∧
    sTwo.pub_key_to_id infoA.public_key = some idA := by
  have hrun : runOps (State.new 4 p0) [Op.create idA pkA, Op.create idB pkB] =
      some sTwo := by
    rw [new_four_eq_base4]
    rfl
  exact ⟨by decide, hrun, rfl,
    directory_inverse_of_distinct_keys 4 p0 [Op.create idA pkA, Op.create idB pkB]
      sTwo idA infoA (by decide) hrun rfl⟩

/-- C6 counterexample: in the freshly built capacity-4 ledger, creating an
account with the out-of-range id 5 fails the tree update (a panic in the
source), yet the public key has already been inserted into `pub_key_to_id` at
that point, so the failed operation is not atomic. -/
theorem new_account_non_atomic_cex :
    ((State.new 4 p0).new_account idBig pkA).panicked = true ∧
    (State.new 4 p0).pub_key_to_id pkA = none ∧
    ((State.new 4 p0).new_account idBig pkA).state.pub_key_to_id pkA =
      some idBig := by
  rw [new_four_eq_base4]
  exact ⟨rfl, rfl, rfl⟩

/-- A hand-built state whose record map holds an id (5) that lies outside the
capacity of its height-2 tree, used to exercise the failure branch of
`update_balance`. -/
def oddState : State :=
  ⟨MerkleTree.blank (fun _ => 0) (fun _ _ => 0) 2,
   fun j => if j = idBig then some infoA else none,
   fun _ => none⟩

/-- C6 (amended): the two mutating operations are not atomic on failure.
When the tree update at index `id` fails (id out of range), the operation
panics with the mutations that textually precede the tree update already
applied: `new_account` has already inserted `public_key ↦ id` into
`pub_key_to_id` (the tree and `id_to_account_info` are unchanged), and
`update_balance` has already overwritten the stored record's balance (the
tree and `pub_key_to_id` are unchanged). -/
theorem mutation_failure_shape (s : State) (id : AccountId)
    (pk : AccountPublicKey) (a : Amount) (info : AccountInformation)
    (hr : ¬ id.val.val < 2 ^ s.account_merkle_tree.height) :
    ((s.new_account id pk).panicked = true ∧
     (s.new_account id pk).state.account_merkle_tree = s.account_merkle_tree ∧
     (s.new_account id pk).state.id_to_account_info = s.id_to_account_info ∧
     (s.new_account id pk).state.pub_key_to_id = insertPk s.pub_key_to_id pk id) ∧
    (s.id_to_account_info id = some info →
      ((s.update_balance id a).panicked = true ∧
       (s.update_balance id a).state.account_merkle_tree = s.account_merkle_tree ∧
       (s.update_balance id a).state.pub_key_to_id = s.pub_key_to_id ∧
       (s.update_balance id a).state.id_to_account_info =
         insertInfo s.id_to_account_info id { info with balance := a })) := by
  constructor
  · rw [new_account_eq_of_ge s id pk hr]
    exact ⟨rfl, rfl, rfl, rfl⟩
  · intro hinfo
    rw [update_balance_eq_of_ge s id a info hinfo hr]
    exact ⟨rfl, rfl, rfl, rfl⟩

theorem mutation_failure_shape_witness :
    (¬ idBig.val.val < 2 ^ oddState.account_merkle_tree.height) ∧
    oddState.id_to_account_info idBig = some infoA ∧
    ((oddState.new_account idBig pkB).panicked = true ∧
     (oddState.new_account idBig pkB).state.pub_key_to_id =
       insertPk oddState.pub_key_to_id pkB idBig) ∧
    ((oddState.update_balance idBig ⟨7⟩).panicked = true ∧
     (oddState.update_balance idBig ⟨7⟩).state.id_to_account_info =
       insertInfo oddState.id_to_account_info idBig { infoA with balance := ⟨7⟩ }) :=
  ⟨by decide, rfl,
   ⟨(mutation_failure_shape oddState idBig pkB ⟨7⟩ infoA (by decide)).1.1,
    (mutation_failure_shape oddState idBig pkB ⟨7⟩ infoA (by decide)).1.2.2.2⟩,
   ⟨((mutation_failure_shape oddState idBig pkB ⟨7⟩ infoA (by decide)).2 rfl).1,
    ((mutation_failure_shape oddState idBig pkB ⟨7⟩ infoA (by decide)).2 rfl).2.2.2⟩⟩

/-- For positive capacities, the library logarithm used by `State::new` is
the ceiling base-2 logarithm. -/
theorem log2ark_eq_clog (c : Nat) (h : 1 ≤ c) : log2ark c = Nat.clog 2 c := by
  have hc0 : c ≠ 0 := by omega
  unfold log2ark
  rw [if_neg hc0]
  by_cases hpow : 2 ^ Nat.log 2 c = c
  · rw [if_pos hpow]
    conv_rhs => rw [← hpow]
    rw [Nat.clog_pow 2 _ one_lt_two]
  · rw [if_neg hpow]
    have hlow : 2 ^ Nat.log 2 c ≤ c := Nat.pow_log_le_self 2 hc0
    have hhigh : c < 2 ^ (Nat.log 2 c + 1) := Nat.lt_pow_succ_log_self one_lt_two c
    have h1 : Nat.clog 2 c ≤ Nat.log 2 c + 1 :=
      (Nat.le_pow_iff_clog_le one_lt_two).mp (le_of_lt hhigh)
    have h2 : Nat.log 2 c + 1 ≤ Nat.clog 2 c := by
      by_contra hcon
      push_neg at hcon
      have hle : c ≤ 2 ^ Nat.log 2 c :=
        (Nat.le_pow_iff_clog_le one_lt_two).mpr (by omega)
      exact hpow (le_antisymm hlow hle)
    omega

/-- C9: for every capacity hint `c ≥ 1`, `new(c, parameters)` succeeds and
builds a ledger whose commitment tree is the blank tree of height
`ceil(log2 c)` using the bundle's two hash parameters, with both account maps
empty. -/
theorem state_new_blank (c : Nat) (p : Parameters) (h : 1 ≤ c) :
    (State.new c p).account_merkle_tree.height = Nat.clog 2 c ∧
    (State.new c p).account_merkle_tree.leafHash = p.leaf_crh_params ∧
    (State.new c p).account_merkle_tree.twoToOneHash = p.two_to_one_crh_params ∧
    (∀ i, (State.new c p).account_merkle_tree.leaves i = blankLeafBytes) ∧
    (∀ id, (State.new c p).id_to_account_info id = none) ∧
    (∀ pk, (State.new c p).pub_key_to_id pk = none) :=
  ⟨by simp [State.new, MerkleTree.blank, log2ark_eq_clog c h],
   rfl, rfl, fun _ => rfl, fun _ => rfl, fun _ => rfl⟩

theorem state_new_blank_witness :
    1 ≤ 4 ∧
    ((State.new 4 p0).account_merkle_tree.height = Nat.clog 2 4 ∧
     (State.new 4 p0).account_merkle_tree.leafHash = p0.leaf_crh_params ∧
     (State.new 4 p0).account_merkle_tree.twoToOneHash = p0.two_to_one_crh_params ∧
     (∀ i, (State.new 4 p0).account_merkle_tree.leaves i = blankLeafBytes) ∧
     (∀ id, (State.new 4 p0).id_to_account_info id = none) ∧
     (∀ pk, (State.new 4 p0).pub_key_to_id pk = none)) :=
  ⟨by decide, state_new_blank 4 p0 (by decide)⟩
